import Mathlib

/-!
Shallow embedding of the PersonalAccountant Cloudflare worker
(`src/index.ts`) and proofs of the specification claims.

Text is modelled as `List Char`; JavaScript `undefined`/`null` as
`Option`; a thrown exception as `Except.error`; remote calls as
explicit effect traces.
-/

namespace PA

/-! ## Text Normalizer (`normalize`, src/index.ts lines 32-33)

`normalize` first escapes every character of the MarkdownV2 class
with a backslash (regex `$&` replacement), then deletes citation
markers of shape `【digits:digits†source】` in one left-to-right
global-replace pass that never rescans replaced regions.
-/

/-- Opening bracket character of a citation marker. -/
def lbr : Char := '【'

/-- Closing bracket character of a citation marker. -/
def rbr : Char := '】'

/-- The character class of the escaping regex in `normalize`:
`_ [ ] ~ backtick > # + - = | lbrace rbrace . !`. -/
def specialChars : List Char :=
  ['_', '[', ']', '~', '`', '>', '#', '+', '-', '=', '|', '\x7b', '\x7d', '.', '!']

def isSpecial (c : Char) : Bool := decide (c ∈ specialChars)

/-- First pass of `normalize`: prefix every special character with a
backslash (`text.replace(class, backslash-dollar-amp)`). -/
def escapeText : List Char → List Char
  | [] => []
  | c :: cs => if isSpecial c then '\\' :: c :: escapeText cs else c :: escapeText cs

def hasDigit (l : List Char) : Bool :=
  match l with
  | [] => false
  | c :: _ => c.isDigit

def skipDigits : List Char → List Char
  | [] => []
  | c :: cs => if c.isDigit then skipDigits cs else c :: cs

def expectChar (c : Char) : List Char → Option (List Char)
  | [] => none
  | x :: xs => if x = c then some xs else none

def expectStr : List Char → List Char → Option (List Char)
  | [], l => some l
  | _ :: _, [] => none
  | c :: cs, x :: xs => if x = c then expectStr cs xs else none

/-- The fixed tail of a citation marker after the second digit run. -/
def markerSuffix : List Char := '†' :: ('s' :: 'o' :: 'u' :: 'r' :: 'c' :: 'e' :: [rbr])

/-- Match the part of a citation marker after the opening `lbr`:
one-or-more digits, a colon, one-or-more digits, then `markerSuffix`.
Returns the remaining input on success.  This is exactly the regex
`digits:digits†source-rbr` (greedy `d+` needs no backtracking because
each digit run is followed by a non-digit literal). -/
def matchMarkerAfter (l : List Char) : Option (List Char) :=
  if hasDigit l then
    match expectChar ':' (skipDigits l) with
    | none => none
    | some l2 =>
      if hasDigit l2 then expectStr markerSuffix (skipDigits l2)
      else none
  else none

/-- Second pass of `normalize`, fuel-indexed: one left-to-right scan
deleting each leftmost marker and continuing after its end, exactly
like a JavaScript global replace with the empty string.  With fuel at
least the input length the fuel never runs out. -/
def stripMarkersF : Nat → List Char → List Char
  | 0, l => l
  | _ + 1, [] => []
  | f + 1, c :: cs =>
    if c = lbr then
      match matchMarkerAfter cs with
      | some r => stripMarkersF f r
      | none => c :: stripMarkersF f cs
    else c :: stripMarkersF f cs

def stripMarkers (l : List Char) : List Char := stripMarkersF l.length l

/-- The Text Normalizer: escape pass first, marker deletion second. -/
def normalize (l : List Char) : List Char := stripMarkers (escapeText l)

/-! ## Notifier formatting (`formatTransactionDetails`, lines 45-48;
`sendTelegramMessage`, lines 83-87) -/

/-- JavaScript truthiness of an optional string (`undefined`, `null`
and the empty string are falsy). -/
def jsTruthy : Option String → Bool
  | none => false
  | some s => s ≠ ""

/-- JavaScript `x || "N/A"` on an optional string field. -/
def jsOrNA : Option String → String
  | none => "N/A"
  | some s => if s = "" then "N/A" else s

/-- The duck-typed transaction details object. -/
structure TransactionDetails where
  error : Option String
  message : String
  bank_name : Option String
  datetime : Option String
  amount : Option String
  currency : Option String
  plain_data : Option String

/-- `formatTransactionDetails` from the source: an error line when
`details.error` is truthy, otherwise the notification template
interpolating `message`, `bank_name || "N/A"` and `datetime || "N/A"`. -/
def formatTransactionDetails (d : TransactionDetails) : String :=
  if jsTruthy d.error then
    "Transaction error: " ++ d.error.getD ""
  else
    "💳 *Có giao dịch thẻ mới nè*\n\n" ++ d.message ++ "\n\n*Từ:* " ++
      jsOrNA d.bank_name ++ "\n*Ngày:* " ++ jsOrNA d.datetime ++ "\n------------------"

/-- The message text `sendTelegramMessage` hands to the chat transport
on behalf of `notifyServices`: the formatted details, normalized. -/
def notifierMessage (d : TransactionDetails) : List Char :=
  normalize (formatTransactionDetails d).data

/-! ## Report Date Formatter (`formatDate`, week branch, lines 107-113)

Dates are modelled as whole-day indices (days since 1970-01-01, an
`Int`); `jsGetDay` is JavaScript `Date.getDay` (0 = Sunday; day 0,
1970-01-01, was a Thursday = 4). -/

def jsGetDay (d : Int) : Int := (d + 4) % 7

/-- The week branch of `formatDate`: mutate the date back by
`getDay()` days to reach the week's Sunday, then take that Sunday
minus six days as the Monday; the rendered range runs from the Monday
(start) to the Sunday (end). -/
def formatDateWeek (today : Int) : Int × Int :=
  let currentSunday := today - jsGetDay today
  let lastMonday := currentSunday - 6
  (lastMonday, currentSunday)

/-! ## Job Poller (`waitForCompletion`, lines 58-68)

The remote job API is modelled as the sequence of run records the
successive `retrieve` calls would return; the loop's observable
behaviour is an event trace of fetches and sleeps. -/

structure RunRecord where
  status : String
  payload : Nat
deriving DecidableEq

def isPending (s : String) : Bool := s = "queued" || s = "in_progress"

inductive PollEv where
  | fetch (i : Nat)
  | sleepMs (ms : Nat)
deriving DecidableEq

/-- The do-while loop of `waitForCompletion`: fetch the `i`-th run
record; if its status is pending, sleep 500 ms and loop; otherwise
return it.  Fuel-indexed; `none` means the fuel ran out before a
terminal status appeared. -/
def pollLoop (runs : Nat → RunRecord) : Nat → Nat → Option (RunRecord × List PollEv)
  | 0, _ => none
  | f + 1, i =>
    let run := runs i
    if isPending run.status then
      match pollLoop runs f (i + 1) with
      | some (r, evs) => some (r, PollEv.fetch i :: PollEv.sleepMs 500 :: evs)
      | none => none
    else some (run, [PollEv.fetch i])

def waitForCompletion (runs : Nat → RunRecord) (fuel : Nat) :
    Option (RunRecord × List PollEv) :=
  pollLoop runs fuel 0

/-- The trace of the first `n` (pending) iterations starting at fetch
index `j`: fetch, sleep 500, fetch, sleep 500, ... -/
def pollTrace (j : Nat) : Nat → List PollEv
  | 0 => []
  | n + 1 => PollEv.fetch j :: PollEv.sleepMs 500 :: pollTrace (j + 1) n

/-! ## Transaction Sink (`storeTransaction`, lines 399-452)

The two remote calls are modelled by the responses they would return;
the function's observable behaviour is the list of calls issued plus
either success or the thrown error message. -/

structure HttpResp where
  ok : Bool
  statusText : String

inductive StoreEv where
  | uploadFile
  | attachVector
  | rollbackDelete
deriving DecidableEq

/-- `storeTransaction`: upload the transaction file; on a non-ok
response throw; otherwise attach the uploaded file to the vector
store; on a non-ok response throw.  No other remote call is made. -/
def storeTransaction (upload attach : HttpResp) : List StoreEv × Except String Unit :=
  if upload.ok then
    if attach.ok then
      ([StoreEv.uploadFile, StoreEv.attachVector], Except.ok ())
    else
      ([StoreEv.uploadFile, StoreEv.attachVector],
        Except.error ("Error adding file to vector store: " ++ attach.statusText))
  else
    ([StoreEv.uploadFile],
      Except.error ("Upload transaction file error: " ++ upload.statusText))

/-! ## JSON (model of the JavaScript `JSON.parse` builtin)

`processTransaction` feeds the completion reply to `JSON.parse`.
Numbers keep their validated lexeme; strings decode escapes. -/

inductive Json where
  | null
  | bool (b : Bool)
  | num (raw : List Char)
  | str (s : List Char)
  | arr (elems : List Json)
  | obj (fields : List (List Char × Json))

def isJsonWs (c : Char) : Bool := c = ' ' || c = '\t' || c = '\n' || c = '\r'

def skipWs : List Char → List Char
  | [] => []
  | c :: cs => if isJsonWs c then skipWs cs else c :: cs

def hexVal (c : Char) : Option Nat :=
  if '0' ≤ c ∧ c ≤ '9' then some (c.toNat - '0'.toNat)
  else if 'a' ≤ c ∧ c ≤ 'f' then some (c.toNat - 'a'.toNat + 10)
  else if 'A' ≤ c ∧ c ≤ 'F' then some (c.toNat - 'A'.toNat + 10)
  else none

def escCharMap (c : Char) : Option Char :=
  if c = '"' then some '"'
  else if c = '\\' then some '\\'
  else if c = '/' then some '/'
  else if c = 'b' then some (Char.ofNat 8)
  else if c = 'f' then some (Char.ofNat 12)
  else if c = 'n' then some '\n'
  else if c = 'r' then some '\r'
  else if c = 't' then some '\t'
  else none

/-- Parse the body of a JSON string after its opening quote, returning
the decoded characters and the input after the closing quote. -/
def parseStringRest : List Char → Option (List Char × List Char)
  | [] => none
  | c :: cs =>
    if c = '"' then some ([], cs)
    else if c = '\\' then
      match cs with
      | [] => none
      | e :: cs2 =>
        if e = 'u' then
          match cs2 with
          | h1 :: h2 :: h3 :: h4 :: cs3 =>
            match hexVal h1, hexVal h2, hexVal h3, hexVal h4 with
            | some a, some b, some c4, some d =>
              (parseStringRest cs3).map
                (fun p => (Char.ofNat (((a * 16 + b) * 16 + c4) * 16 + d) :: p.1, p.2))
            | _, _, _, _ => none
          | _ => none
        else
          match escCharMap e with
          | some d => (parseStringRest cs2).map (fun p => (d :: p.1, p.2))
          | none => none
    else if c.toNat < 32 then none
    else (parseStringRest cs).map (fun p => (c :: p.1, p.2))
termination_by l => l.length
decreasing_by all_goals (simp [List.length]; try omega)

def splitDigits : List Char → List Char × List Char
  | [] => ([], [])
  | c :: cs =>
    if c.isDigit then
      let p := splitDigits cs
      (c :: p.1, p.2)
    else ([], c :: cs)

def parseIntPart : List Char → Option (List Char × List Char)
  | [] => none
  | c :: cs =>
    if c = '0' then some ([c], cs)
    else if c.isDigit then some (c :: (splitDigits cs).1, (splitDigits cs).2)
    else none

def parseFracPart : List Char → Option (List Char × List Char)
  | '.' :: cs =>
    match splitDigits cs with
    | ([], _) => none
    | (ds, r) => some ('.' :: ds, r)
  | l => some ([], l)

def parseExpPart : List Char → Option (List Char × List Char)
  | [] => some ([], [])
  | c :: cs =>
    if c = 'e' ∨ c = 'E' then
      match cs with
      | [] => none
      | s :: cs2 =>
        if s = '+' ∨ s = '-' then
          match splitDigits cs2 with
          | ([], _) => none
          | (ds, r) => some (c :: s :: ds, r)
        else
          match splitDigits cs with
          | ([], _) => none
          | (ds, r) => some (c :: ds, r)
    else some ([], c :: cs)

/-- JSON number grammar: optional minus, integer part with no leading
zero, optional fraction, optional exponent; the lexeme is kept raw. -/
def parseNumber (l : List Char) : Option (Json × List Char) :=
  let sl : List Char × List Char :=
    match l with
    | '-' :: cs => (['-'], cs)
    | _ => ([], l)
  match parseIntPart sl.2 with
  | none => none
  | some (ip, l2) =>
    match parseFracPart l2 with
    | none => none
    | some (fp, l3) =>
      match parseExpPart l3 with
      | none => none
      | some (ep, l4) => some (Json.num (sl.1 ++ ip ++ fp ++ ep), l4)

def litTrue : List Char := ['r', 'u', 'e']
def litFalse : List Char := ['a', 'l', 's', 'e']
def litNull : List Char := ['u', 'l', 'l']

mutual

/-- Parse one JSON value (fuel-indexed recursion). -/
def parseVal : Nat → List Char → Option (Json × List Char)
  | 0, _ => none
  | f + 1, input =>
    match skipWs input with
    | [] => none
    | c :: cs =>
      if c = '\x7b' then
        match skipWs cs with
        | [] => none
        | x :: r => if x = '\x7d' then some (Json.obj [], r) else parseFields f (x :: r)
      else if c = '[' then
        match skipWs cs with
        | [] => none
        | x :: r => if x = ']' then some (Json.arr [], r) else parseElems f (x :: r)
      else if c = '"' then (parseStringRest cs).map (fun p => (Json.str p.1, p.2))
      else if c = 't' then (expectStr litTrue cs).map (fun r => (Json.bool true, r))
      else if c = 'f' then (expectStr litFalse cs).map (fun r => (Json.bool false, r))
      else if c = 'n' then (expectStr litNull cs).map (fun r => (Json.null, r))
      else if c = '-' ∨ c.isDigit then parseNumber (c :: cs)
      else none

/-- Parse the members of a non-empty JSON object. -/
def parseFields : Nat → List Char → Option (Json × List Char)
  | 0, _ => none
  | f + 1, input =>
    match skipWs input with
    | '"' :: cs =>
      match parseStringRest cs with
      | none => none
      | some (key, r1) =>
        match skipWs r1 with
        | ':' :: r2 =>
          match parseVal f r2 with
          | none => none
          | some (v, r3) =>
            match skipWs r3 with
            | [] => none
            | ',' :: r4 =>
              match parseFields f r4 with
              | some (Json.obj fs, r) => some (Json.obj ((key, v) :: fs), r)
              | _ => none
            | x :: r4 => if x = '\x7d' then some (Json.obj [(key, v)], r4) else none
        | _ => none
    | _ => none

/-- Parse the elements of a non-empty JSON array. -/
def parseElems : Nat → List Char → Option (Json × List Char)
  | 0, _ => none
  | f + 1, input =>
    match parseVal f input with
    | none => none
    | some (v, r1) =>
      match skipWs r1 with
      | [] => none
      | ',' :: r2 =>
        match parseElems f r2 with
        | some (Json.arr vs, r) => some (Json.arr (v :: vs), r)
        | _ => none
      | x :: r2 => if x = ']' then some (Json.arr [v], r2) else none

end

/-- `JSON.parse`: one value, then only whitespace may remain.
`none` models the thrown `SyntaxError`. -/
def jsonParse (l : List Char) : Option Json :=
  match parseVal (2 * l.length + 2) l with
  | some (j, r) => if (skipWs r).isEmpty then some j else none
  | none => none

/-! ## Transaction Extractor (`processTransaction`, lines 459-493)
and the three trigger paths that call it. -/

def resultKey : List Char := ['r', 'e', 's', 'u', 'l', 't']
def failedLit : List Char := ['f', 'a', 'i', 'l', 'e', 'd']

/-- JavaScript property access `content.result`: on a JSON-parsed
object a later duplicate key overwrites an earlier one, hence the
last matching member wins. -/
def jsGetField (j : Json) (key : List Char) : Option Json :=
  match j with
  | Json.obj fs => (fs.reverse.find? (fun p => p.1 == key)).map Prod.snd
  | _ => none

/-- The strict comparison `content.result === "failed"`. -/
def isFailedStr : Option Json → Bool
  | some (Json.str s) => s == failedLit
  | _ => false

def isZeroLexeme (raw : List Char) : Bool := raw.all (fun c => !c.isDigit || c = '0')

/-- JavaScript truthiness of a JSON value. -/
def jsonTruthy (j : Json) : Bool :=
  match j with
  | Json.null => false
  | Json.bool b => b
  | Json.num raw => !isZeroLexeme raw
  | Json.str s => !s.isEmpty
  | Json.arr _ => true
  | Json.obj _ => true

inductive JsErr where
  | syntaxError
  | emptyEmail
deriving DecidableEq

/-- `contentStr.replaceAll` deleting every backtick. -/
def stripBackticks (l : List Char) : List Char := l.filter (fun c => c ≠ '`')

/-- `processTransaction`: take the completion reply's content (absent
content is `none`), strip backticks; falsy content yields "no
transaction" (`Except.ok none`); then `JSON.parse` — a parse failure
throws (`Except.error`, there is no try/catch in the source); a
parsed `result` field equal to "failed" yields "no transaction";
otherwise the parsed value is returned. -/
def processTransaction (content : Option (List Char)) : Except JsErr (Option Json) :=
  match content with
  | none => Except.ok none
  | some s =>
    let cs := stripBackticks s
    if cs.isEmpty then Except.ok none
    else
      match jsonParse cs with
      | none => Except.error JsErr.syntaxError
      | some j =>
        if isFailedStr (jsGetField j resultKey) then Except.ok none
        else Except.ok (some j)

inductive Effect where
  | store (j : Json)
  | notify (j : Json)

/-- The shared tail of the three trigger paths (`email`,
`assistantOcr`, `assistantManualTransaction`): run the extractor; a
falsy result returns "Not okay" with no downstream calls; otherwise
`storeTransaction` and `notifyServices` both receive the record. -/
def runTransactionPipeline (reply : Option (List Char)) :
    Except JsErr (String × List Effect) :=
  match processTransaction reply with
  | Except.error e => Except.error e
  | Except.ok none => Except.ok ("Not okay", [])
  | Except.ok (some j) =>
    if jsonTruthy j then
      Except.ok ("📬 Email processed successfully", [Effect.store j, Effect.notify j])
    else Except.ok ("Not okay", [])

/-- `email` (lines 381-397): an empty body (`text || html` falsy)
throws before extraction; otherwise the shared pipeline runs. -/
def emailPath (emailContent : Option (List Char)) (reply : Option (List Char)) :
    Except JsErr (String × List Effect) :=
  match emailContent with
  | none => Except.error JsErr.emptyEmail
  | some ec =>
    if ec.isEmpty then Except.error JsErr.emptyEmail else runTransactionPipeline reply

/-- `assistantOcr` (lines 238-245), from the extraction step onward. -/
def assistantOcrPath (reply : Option (List Char)) : Except JsErr (String × List Effect) :=
  runTransactionPipeline reply

/-- `assistantManualTransaction` (lines 247-254). -/
def assistantManualPath (reply : Option (List Char)) : Except JsErr (String × List Effect) :=
  runTransactionPipeline reply

/-! ## Request Dispatcher (`verifyAssistantRequest` lines 256-272 and
`app.post` lines 274-379) -/

structure TgPhoto where
  file_id : String
deriving DecidableEq

structure TgMessage where
  fromId : String
  text : Option String
  photo : List TgPhoto
  message_id : Nat

structure WebhookReq where
  secretHeader : Option String
  message : TgMessage

structure Env where
  secret : String
  chatId : String

inductive AsEffect where
  | readBody
  | newOpenAiClient
  | chatSend
  | openAiCall
deriving DecidableEq

/-- The `POST /assistant` handler: the shared-secret header is checked
before the body is read (`c.req.json()` runs after the check in
`verifyAssistantRequest`); an unknown sender is answered with a chat
notice; only then is the AI client constructed and the message
dispatched.  The dispatch continuation `rest` is a parameter
returning its response text and its own effect trace. -/
def assistantHandler (env : Env) (req : WebhookReq)
    (rest : TgMessage → String × List AsEffect) : (Nat × String) × List AsEffect :=
  match req.secretHeader with
  | none => ((401, "Unauthorized"), [])
  | some tok =>
    if tok = "" ∨ tok ≠ env.secret then ((401, "Unauthorized"), [])
    else
      let msg := req.message
      if msg.fromId ≠ env.chatId then
        ((200, "Unauthorized user"), [AsEffect.readBody, AsEffect.chatSend])
      else
        ((200, (rest msg).1),
          AsEffect.readBody :: AsEffect.newOpenAiClient :: (rest msg).2)

inductive Route where
  | ocr
  | textModel
deriving DecidableEq

/-- Intent classification at line 345: `message.text === undefined`
takes the OCR path; the photo field is never examined. -/
def dispatchIntent (msg : TgMessage) : Route :=
  if msg.text.isNone then Route.ocr else Route.textModel

/-- The photo access `message.photo[3].file_id` in `imageOcr`
(line 208); `none` models the TypeError of reading a property of an
absent element. -/
def imageOcrFileAccess (msg : TgMessage) : Option String :=
  (msg.photo[3]?).map TgPhoto.file_id

/-! ## Claim-side predicates and concrete inputs -/

/-- Scanner for the claim "each special character is preceded by
exactly one backslash": the two preceding characters are tracked; a
special character requires the previous character to be a backslash
and the character before that one not to be a backslash. -/
def okOnceAux (p2 p1 : Option Char) : List Char → Bool
  | [] => true
  | c :: cs =>
    (decide (isSpecial c = true → p1 = some '\\' ∧ p2 ≠ some '\\')) && okOnceAux p1 (some c) cs

def escapedOnce (l : List Char) : Bool := okOnceAux none none l

/-- Well-formedness invariant of escaped text, scanned with the
previous character as state: every special character is immediately
preceded by a backslash, and every backslash is immediately followed
by a special character (hence no two adjacent backslashes and no
trailing backslash). -/
def wfEsc (prev : Option Char) : List Char → Bool
  | [] => decide (prev ≠ some '\\')
  | c :: cs =>
    (decide (isSpecial c = true → prev = some '\\')) &&
      (decide (prev = some '\\' → isSpecial c = true)) && wfEsc (some c) cs

/-- Does the text contain a substring matching the citation-marker
pattern? -/
def containsMarker : List Char → Bool
  | [] => false
  | c :: cs => (decide (c = lbr) && (matchMarkerAfter cs).isSome) || containsMarker cs

/-- Characters that may appear inside a citation marker after `lbr`:
they are not special, not a backslash and not `lbr` itself. -/
def markerCharOk (c : Char) : Bool :=
  !isSpecial c && !(decide (c = '\\')) && !(decide (c = lbr))

/-- Spec-shaped notification template of §4.6: a function of exactly
the message, bank and datetime texts. -/
def mkNotifText (message bank datetime : String) : String :=
  "💳 *Có giao dịch thẻ mới nè*\n\n" ++ message ++ "\n\n*Từ:* " ++ bank ++
    "\n*Ngày:* " ++ datetime ++ "\n------------------"

/-- The confirmed Transaction Record of the spec's Notifier example. -/
def sampleRecord : TransactionDetails :=
  ⟨none, "Mua cà phê", some "Vietcombank", some "01/01/2025 08:00:00",
    some "50.000", some "VNĐ", none⟩

/-- An extraction reply whose parsed JSON carries `result = "failed"`. -/
def failedReply : List Char := "\x7b\"result\":\"failed\"\x7d".data

/-- A completion reply that is plain prose, not JSON. -/
def cantHelpReply : List Char := "Sorry, I can't help".data

/-- Input refuting C4 as stated: a backslash in front of a special
character, and a marker nested inside marker-shaped text. -/
def c4CexInput : List Char := "\\.【1:2【9:9†source】†source】".data

/-- A well-behaved input for the amended C4: special characters, no
backslash, a single citation marker. -/
def c4WitInput : List Char := "a.b!【1:2†source】c".data

/-! ## Theorems -/

/-- Helper for C5: starting at fetch index `j`, when the first `N`
statuses are pending and the `N`-th is not, the loop fetches
`j, j+1, …, j+N` in order, sleeps 500 ms after each pending fetch,
and returns the `(j+N)`-th run record. -/
theorem pollLoop_spec (runs : Nat → RunRecord) :
    ∀ (N j fuel : Nat), N < fuel →
      isPending (runs (j + N)).status = false →
      (∀ k, k < N → isPending (runs (j + k)).status = true) →
      pollLoop runs fuel j =
        some (runs (j + N), pollTrace j N ++ [PollEv.fetch (j + N)]) := by
  intro N
  induction N with
  | zero =>
    intro j fuel hf h0 _
    match fuel, hf with
    | f + 1, _ =>
      simp only [Nat.add_zero] at h0 ⊢
      simp [pollLoop, h0, pollTrace]
  | succ n ih =>
    intro j fuel hf hN hk
    match fuel, hf with
    | f + 1, hf =>
      have hpj : isPending (runs j).status = true := by
        have h := hk 0 (Nat.succ_pos n)
        simpa using h
      have hrec := ih (j + 1) f (Nat.lt_of_succ_lt_succ hf)
        (by rwa [show j + 1 + n = j + (n + 1) by omega])
        (by
          intro k hkn
          have h := hk (k + 1) (by omega)
          rwa [show j + (k + 1) = j + 1 + k by omega] at h)
      rw [show j + 1 + n = j + (n + 1) by omega] at hrec
      simp [pollLoop, hpj, hrec, pollTrace]

/-- C5: for every status sequence that eventually leaves
{queued, in_progress}, the poller fetches statuses in order starting
from the first, sleeps a fixed 500 ms after each pending fetch,
performs at least one fetch, and returns the first run record whose
status is not pending; with the first status already terminal the
trace is a single fetch and no sleep. -/
theorem C5_poller_trace (runs : Nat → RunRecord) (N fuel : Nat) (hf : N < fuel)
    (hN : isPending (runs N).status = false)
    (hmin : ∀ k, k < N → isPending (runs k).status = true) :
    waitForCompletion runs fuel =
      some (runs N, pollTrace 0 N ++ [PollEv.fetch N]) := by
  have h := pollLoop_spec runs N 0 fuel hf (by simpa using hN)
    (by intro k hk; simpa using hmin k hk)
  simpa [waitForCompletion] using h

/-- Witness for C5: a job whose very first status is "completed" is
fetched exactly once and never slept on. -/
theorem C5_witness :
    waitForCompletion (fun i => ⟨"completed", i⟩) 1 =
      some (⟨"completed", 0⟩, [PollEv.fetch 0]) := by
  have h := C5_poller_trace (fun i => ⟨"completed", i⟩) 0 1 (by decide)
    (by decide) (by intro k hk; exact absurd hk (by omega))
  simpa [pollTrace] using h

/-- C2 (code bug evidence): a completion reply that is plain prose
("Sorry, I can't help") reaches the bare `JSON.parse` and the
extractor raises a SyntaxError instead of returning "no transaction";
the source has no try/catch around the parse. -/
theorem C2_nonjson_reply_raises :
    processTransaction (some cantHelpReply) = Except.error JsErr.syntaxError := by
  rfl

/-- C3: a webhook request whose secret header is missing or different
from the configured secret is answered with status 401 and the
"Unauthorized" body, and no effect happens: the body is not read, no
AI client is constructed, no remote AI or chat call is made. -/
theorem C3_auth_rejected_before_work (env : Env) (req : WebhookReq)
    (rest : TgMessage → String × List AsEffect)
    (h : req.secretHeader = none ∨
      ∀ t, req.secretHeader = some t → t ≠ env.secret) :
    assistantHandler env req rest = ((401, "Unauthorized"), []) := by
  rcases h with h | h
  · simp [assistantHandler, h]
  · cases hh : req.secretHeader with
    | none => simp [assistantHandler, hh]
    | some t => simp [assistantHandler, hh, h t hh]

/-- Witness for C3 at a concrete mismatched header. -/
theorem C3_witness :
    assistantHandler ⟨"s3cret", "42"⟩ ⟨some "wrong", ⟨"42", none, [], 0⟩⟩
        (fun _ => ("done", [AsEffect.openAiCall])) = ((401, "Unauthorized"), []) :=
  C3_auth_rejected_before_work _ _ _
    (Or.inr (by intro t ht; cases ht; decide))

set_option maxRecDepth 100000 in
/-- C6 counterexample: on the spec's sample record the notifier
message does not contain "50\.000" nor "VNĐ" — the template never
interpolates the amount or the currency — so the claimed conjunction
of four substrings fails. -/
theorem C6_counterexample :
    ¬ (("50\\.000".data <:+: notifierMessage sampleRecord) ∧
       ("VNĐ".data <:+: notifierMessage sampleRecord) ∧
       ("Mua cà phê".data <:+: notifierMessage sampleRecord) ∧
       ("Vietcombank".data <:+: notifierMessage sampleRecord)) := by
  decide

set_option maxRecDepth 100000 in
/-- C6 amended: the notifier message for the sample record contains
the message, bank name and datetime literally, but not the amount or
the currency, which are never interpolated. -/
theorem C6_amended_substrings :
    ("Mua cà phê".data <:+: notifierMessage sampleRecord) ∧
    ("Vietcombank".data <:+: notifierMessage sampleRecord) ∧
    ("01/01/2025 08:00:00".data <:+: notifierMessage sampleRecord) ∧
    ¬ ("50\\.000".data <:+: notifierMessage sampleRecord) ∧
    ¬ ("VNĐ".data <:+: notifierMessage sampleRecord) := by
  decide

/-- C7: the sink throws exactly when a call answers non-2xx, the
error carries that call's HTTP status text, a failed upload prevents
the vector-attach call, and no rollback call ever happens. -/
theorem C7_sink_two_phase (upload attach : HttpResp) :
    (upload.ok = false →
      storeTransaction upload attach =
        ([StoreEv.uploadFile],
          Except.error ("Upload transaction file error: " ++ upload.statusText))) ∧
    (upload.ok = true → attach.ok = false →
      storeTransaction upload attach =
        ([StoreEv.uploadFile, StoreEv.attachVector],
          Except.error ("Error adding file to vector store: " ++ attach.statusText))) ∧
    (upload.ok = true → attach.ok = true →
      storeTransaction upload attach =
        ([StoreEv.uploadFile, StoreEv.attachVector], Except.ok ())) ∧
    StoreEv.rollbackDelete ∉ (storeTransaction upload attach).1 := by
  refine ⟨?_, ?_, ?_, ?_⟩
  · intro hu; simp [storeTransaction, hu]
  · intro hu ha; simp [storeTransaction, hu, ha]
  · intro hu ha; simp [storeTransaction, hu, ha]
  · cases hu : upload.ok <;> cases ha : attach.ok <;>
      simp [storeTransaction, hu, ha]

/-- Witness for C7: a failed upload throws with the status text and
never issues the vector-attach call. -/
theorem C7_witness :
    storeTransaction ⟨false, "Bad Gateway"⟩ ⟨true, "OK"⟩ =
      ([StoreEv.uploadFile],
        Except.error "Upload transaction file error: Bad Gateway") :=
  (C7_sink_two_phase ⟨false, "Bad Gateway"⟩ ⟨true, "OK"⟩).1 rfl

/-- C8: when today is a Sunday, the week branch of the report date
formatter returns the range ending today and starting six days
earlier. -/
theorem C8_week_range_on_sunday (today : Int) (h : jsGetDay today = 0) :
    formatDateWeek today = (today - 6, today) := by
  simp [formatDateWeek, h]

/-- Witness for C8: day 3 (1970-01-04) is a Sunday. -/
theorem C8_witness : formatDateWeek 3 = (3 - 6, 3) :=
  C8_week_range_on_sunday 3 (by decide)

/-- C9: a message without a text field is routed to the OCR path with
no check of the photo field, and the OCR path's `photo[3]` access is
defined exactly when the photo array has at least four elements. -/
theorem C9_ocr_route_unconditional (msg : TgMessage) (h : msg.text = none) :
    dispatchIntent msg = Route.ocr ∧
      ((imageOcrFileAccess msg).isSome ↔ 4 ≤ msg.photo.length) := by
  constructor
  · simp [dispatchIntent, h]
  · cases h3 : msg.photo[3]? with
    | none =>
      have hlen : msg.photo.length ≤ 3 := List.getElem?_eq_none_iff.mp h3
      simp [imageOcrFileAccess, h3]
      omega
    | some p =>
      have hlen : 3 < msg.photo.length := by
        rcases List.getElem?_eq_some_iff.mp h3 with ⟨hh, _⟩
        exact hh
      simp [imageOcrFileAccess, h3]
      omega

/-- Witness for C9: a photo-less text-less message still takes the
OCR route, whose photo access is then undefined. -/
theorem C9_witness :
    dispatchIntent ⟨"42", none, [], 0⟩ = Route.ocr ∧
      ((imageOcrFileAccess ⟨"42", none, [], 0⟩).isSome ↔
        4 ≤ (([] : List TgPhoto)).length) :=
  C9_ocr_route_unconditional ⟨"42", none, [], 0⟩ rfl

/-- C10: for non-error details the notification text is exactly the
template over the message, the bank name and the datetime — the only
interpolated fields — where an absent or empty bank name or datetime
renders as "N/A". -/
theorem C10_format_na_fields (d : TransactionDetails)
    (h : jsTruthy d.error = false) :
    formatTransactionDetails d =
        mkNotifText d.message (jsOrNA d.bank_name) (jsOrNA d.datetime) ∧
      jsOrNA none = "N/A" ∧ jsOrNA (some "") = "N/A" := by
  refine ⟨?_, rfl, by decide⟩
  simp [formatTransactionDetails, mkNotifText, h]

/-! ### Normalizer lemmas (C4) -/

theorem wfEsc_cons (p : Option Char) (c : Char) (cs : List Char) :
    wfEsc p (c :: cs) = true ↔
      ((isSpecial c = true → p = some '\\') ∧
       (p = some '\\' → isSpecial c = true) ∧ wfEsc (some c) cs = true) := by
  simp only [wfEsc, Bool.and_eq_true, decide_eq_true_eq, and_assoc]

theorem isSpecial_backslash : isSpecial '\\' = false := by decide

theorem isSpecial_lbr : isSpecial lbr = false := by decide

/-- The escape pass establishes the well-formedness invariant on any
backslash-free input. -/
theorem wfEsc_escapeText : ∀ (l : List Char) (p : Option Char),
    '\\' ∉ l → p ≠ some '\\' → wfEsc p (escapeText l) = true := by
  intro l
  induction l with
  | nil => intro p _ hp; simp [escapeText, wfEsc, hp]
  | cons c cs ih =>
    intro p hmem hp
    have hc : c ≠ '\\' := fun he => hmem (he ▸ List.mem_cons_self c cs)
    have hcs : '\\' ∉ cs := fun hm => hmem (List.mem_cons_of_mem c hm)
    have hsc : (some c : Option Char) ≠ some '\\' := by simpa using hc
    by_cases hsp : isSpecial c = true
    · have he : escapeText (c :: cs) = '\\' :: c :: escapeText cs := by
        simp [escapeText, hsp]
      rw [he, wfEsc_cons]
      refine ⟨fun hAbs => absurd hAbs (by decide), fun hpp => absurd hpp hp, ?_⟩
      rw [wfEsc_cons]
      exact ⟨fun _ => rfl, fun _ => hsp, ih (some c) hcs hsc⟩
    · have he : escapeText (c :: cs) = c :: escapeText cs := by
        simp [escapeText, hsp]
      rw [he, wfEsc_cons]
      exact ⟨fun h => absurd h hsp, fun hpp => absurd hpp hp, ih (some c) hcs hsc⟩

theorem skipDigits_decomp (l : List Char) :
    ∃ d, l = d ++ skipDigits l ∧ ∀ c ∈ d, c.isDigit = true := by
  induction l with
  | nil => exact ⟨[], rfl, by simp⟩
  | cons c cs ih =>
    by_cases hc : c.isDigit
    · obtain ⟨d, hd, hall⟩ := ih
      refine ⟨c :: d, ?_, ?_⟩
      · have hs : skipDigits (c :: cs) = skipDigits cs := by simp [skipDigits, hc]
        rw [hs, List.cons_append, ← hd]
      · intro x hx
        rcases List.mem_cons.mp hx with rfl | hx
        · exact hc
        · exact hall x hx
    · refine ⟨[], ?_, by simp⟩
      simp [skipDigits, hc]

theorem expectStr_decomp : ∀ (s l r : List Char), expectStr s l = some r → l = s ++ r := by
  intro s
  induction s with
  | nil =>
    intro l r h
    simp only [expectStr, Option.some.injEq] at h
    simp [h]
  | cons c cs ih =>
    intro l r h
    cases l with
    | nil => simp [expectStr] at h
    | cons x xs =>
      simp only [expectStr] at h
      by_cases hx : x = c
      · rw [if_pos hx] at h
        subst hx
        simpa using ih xs r h
      · rw [if_neg hx] at h
        exact Option.noConfusion h

theorem markerCharOk_digit (c : Char) (h : c.isDigit = true) : markerCharOk c = true := by
  have hall : ∀ x ∈ specialChars, x.isDigit = false := by decide
  have h1 : isSpecial c = false := by
    unfold isSpecial
    by_cases hm : c ∈ specialChars
    · rw [hall c hm] at h
      exact Bool.noConfusion h
    · simp [hm]
  have h2 : ¬(c = '\\') := fun he => absurd (he ▸ h) (by decide)
  have h3 : ¬(c = lbr) := fun he => absurd (he ▸ h) (by decide)
  simp [markerCharOk, h1, h2, h3]

theorem markerCharOk_rest : ∀ c ∈ (':' :: markerSuffix), markerCharOk c = true := by decide

/-- A successful marker match after `lbr` splits the input into the
marker body — made of innocuous characters — and the rest. -/
theorem matchMarkerAfter_decomp (l r : List Char) (h : matchMarkerAfter l = some r) :
    ∃ a, l = a ++ r ∧ ∀ c ∈ a, markerCharOk c = true := by
  unfold matchMarkerAfter at h
  by_cases h1 : hasDigit l = true
  case neg => rw [if_neg h1] at h; exact Option.noConfusion h
  rw [if_pos h1] at h
  cases h2 : expectChar ':' (skipDigits l) with
  | none => rw [h2] at h; exact Option.noConfusion h
  | some l2 =>
    rw [h2] at h
    have h' : (if hasDigit l2 = true then expectStr markerSuffix (skipDigits l2)
        else none) = some r := h
    by_cases h3 : hasDigit l2 = true
    case neg => rw [if_neg h3] at h'; exact Option.noConfusion h'
    rw [if_pos h3] at h'
    obtain ⟨d1, hd1, hall1⟩ := skipDigits_decomp l
    obtain ⟨d2, hd2, hall2⟩ := skipDigits_decomp l2
    have hcolon : skipDigits l = ':' :: l2 := by
      cases hsd : skipDigits l with
      | nil => rw [hsd] at h2; simp [expectChar] at h2
      | cons x xs =>
        rw [hsd] at h2
        simp only [expectChar] at h2
        by_cases hx : x = ':'
        · rw [if_pos hx] at h2
          subst hx
          simp only [Option.some.injEq] at h2
          rw [h2]
        · rw [if_neg hx] at h2
          exact Option.noConfusion h2
    have hsuffix : skipDigits l2 = markerSuffix ++ r := expectStr_decomp _ _ _ h'
    refine ⟨d1 ++ ':' :: (d2 ++ markerSuffix), ?_, ?_⟩
    · calc l = d1 ++ skipDigits l := hd1
        _ = d1 ++ (':' :: l2) := by rw [hcolon]
        _ = d1 ++ (':' :: (d2 ++ skipDigits l2)) := by rw [← hd2]
        _ = d1 ++ (':' :: (d2 ++ (markerSuffix ++ r))) := by rw [hsuffix]
        _ = (d1 ++ ':' :: (d2 ++ markerSuffix)) ++ r := by simp [List.append_assoc]
    · intro c hc
      simp only [List.mem_append, List.mem_cons] at hc
      rcases hc with hc | hc | hc
      · exact markerCharOk_digit c (hall1 c hc)
      · exact markerCharOk_rest c (by simp [hc])
      · rcases hc with hc | hc
        · exact markerCharOk_digit c (hall2 c hc)
        · exact markerCharOk_rest c (by simp [List.mem_cons]; right; exact hc)

/-- The well-formedness invariant transfers to any non-backslash
previous-character state when the head is not special. -/
theorem wfEsc_anyPrev (l : List Char) (p q : Option Char)
    (h : wfEsc p l = true) (hq : q ≠ some '\\')
    (hhead : ∀ c cs, l = c :: cs → isSpecial c = false) :
    wfEsc q l = true := by
  cases l with
  | nil => simp [wfEsc, hq]
  | cons c cs =>
    rw [wfEsc_cons] at h ⊢
    obtain ⟨-, -, h3⟩ := h
    have hns := hhead c cs rfl
    exact ⟨fun hc => absurd hc (by simp [hns]), fun hpq => absurd hpq hq, h3⟩

theorem wfEsc_append_markerOk : ∀ (a r : List Char) (p : Option Char),
    (∀ c ∈ a, markerCharOk c = true) → p ≠ some '\\' →
    wfEsc p (a ++ r) = true →
    ∃ q, q ≠ some '\\' ∧ wfEsc q r = true := by
  intro a
  induction a with
  | nil => intro r p _ hp h; exact ⟨p, hp, h⟩
  | cons c a ih =>
    intro r p hall hp h
    rw [List.cons_append, wfEsc_cons] at h
    obtain ⟨-, -, h3⟩ := h
    have hc : markerCharOk c = true := hall c (List.mem_cons_self c a)
    have hcb : (some c : Option Char) ≠ some '\\' := by
      intro he
      have hce : c = '\\' := by injection he
      rw [hce] at hc
      exact absurd hc (by decide)
    exact ih r (some c) (fun x hx => hall x (List.mem_cons_of_mem c hx)) hcb h3

/-- Deleting a marker preserves the well-formedness invariant. -/
theorem wfEsc_marker_delete (p : Option Char) (cs r : List Char)
    (h : wfEsc p (lbr :: cs) = true) (hm : matchMarkerAfter cs = some r) :
    wfEsc p r = true := by
  rw [wfEsc_cons] at h
  obtain ⟨-, h2, h3⟩ := h
  have hp : p ≠ some '\\' := by
    intro he
    have hx := h2 he
    rw [isSpecial_lbr] at hx
    exact Bool.noConfusion hx
  obtain ⟨a, ha, hall⟩ := matchMarkerAfter_decomp cs r hm
  rw [ha] at h3
  obtain ⟨q, hq, hr⟩ := wfEsc_append_markerOk a r (some lbr) hall (by decide) h3
  refine wfEsc_anyPrev r q p hr hp ?_
  intro c cs' hcons
  subst hcons
  by_cases hsp : isSpecial c = true
  · rw [wfEsc_cons] at hr
    exact absurd (hr.1 hsp) hq
  · simpa using hsp

/-- The marker-deletion pass preserves the well-formedness invariant. -/
theorem wfEsc_stripMarkersF : ∀ (f : Nat) (l : List Char) (p : Option Char),
    wfEsc p l = true → wfEsc p (stripMarkersF f l) = true := by
  intro f
  induction f with
  | zero => intro l p h; simpa [stripMarkersF] using h
  | succ f ih =>
    intro l p h
    cases l with
    | nil => simpa [stripMarkersF] using h
    | cons c cs =>
      by_cases hc : c = lbr
      · subst hc
        cases hm : matchMarkerAfter cs with
        | some r =>
          have hout : stripMarkersF (f + 1) (lbr :: cs) = stripMarkersF f r := by
            simp [stripMarkersF, hm]
          rw [hout]
          exact ih r p (wfEsc_marker_delete p cs r h hm)
        | none =>
          have hout : stripMarkersF (f + 1) (lbr :: cs) = lbr :: stripMarkersF f cs := by
            simp [stripMarkersF, hm]
          rw [hout, wfEsc_cons]
          rw [wfEsc_cons] at h
          exact ⟨h.1, h.2.1, ih cs (some lbr) h.2.2⟩
      · have hout : stripMarkersF (f + 1) (c :: cs) = c :: stripMarkersF f cs := by
          simp [stripMarkersF, hc]
        rw [hout, wfEsc_cons]
        rw [wfEsc_cons] at h
        exact ⟨h.1, h.2.1, ih cs (some c) h.2.2⟩

/-- From the invariant, every special character is preceded by exactly
one backslash. -/
theorem okOnce_of_wfEsc : ∀ (l : List Char) (p2 p1 : Option Char),
    wfEsc p1 l = true → ¬(p2 = some '\\' ∧ p1 = some '\\') →
    okOnceAux p2 p1 l = true := by
  intro l
  induction l with
  | nil => intro p2 p1 _ _; rfl
  | cons c cs ih =>
    intro p2 p1 h hside
    rw [wfEsc_cons] at h
    obtain ⟨h1, h2, h3⟩ := h
    have hstep : isSpecial c = true → p1 = some '\\' ∧ p2 ≠ some '\\' := by
      intro hsp
      have hp1 := h1 hsp
      exact ⟨hp1, fun hp2 => hside ⟨hp2, hp1⟩⟩
    have hside' : ¬(p1 = some '\\' ∧ (some c : Option Char) = some '\\') := by
      rintro ⟨hp1, hcb⟩
      have hce : c = '\\' := by injection hcb
      rw [hce] at h2
      exact absurd (h2 hp1) (by decide)
    simp only [okOnceAux, Bool.and_eq_true, decide_eq_true_eq]
    exact ⟨hstep, ih p1 (some c) h3 hside'⟩

theorem count_escapeText_lbr : ∀ l : List Char,
    (escapeText l).count lbr = l.count lbr := by
  intro l
  induction l with
  | nil => rfl
  | cons c cs ih =>
    by_cases hsp : isSpecial c = true
    · have he : escapeText (c :: cs) = '\\' :: c :: escapeText cs := by
        simp [escapeText, hsp]
      rw [he]
      have hbs : ('\\' == lbr) = false := by decide
      simp [List.count_cons, hbs, ih]
    · have he : escapeText (c :: cs) = c :: escapeText cs := by
        simp [escapeText, hsp]
      rw [he]
      simp [List.count_cons, ih]

theorem strip_id_of_no_lbr : ∀ (f : Nat) (l : List Char),
    lbr ∉ l → stripMarkersF f l = l := by
  intro f
  induction f with
  | zero => intro l _; rfl
  | succ f ih =>
    intro l h
    cases l with
    | nil => rfl
    | cons c cs =>
      have hc : ¬(c = lbr) := fun he => h (he ▸ List.mem_cons_self c cs)
      have hcs : lbr ∉ cs := fun hm => h (List.mem_cons_of_mem c hm)
      have hout : stripMarkersF (f + 1) (c :: cs) = c :: stripMarkersF f cs := by
        simp [stripMarkersF, hc]
      rw [hout, ih cs hcs]

theorem containsMarker_false_of_no_lbr : ∀ l : List Char,
    lbr ∉ l → containsMarker l = false := by
  intro l
  induction l with
  | nil => intro _; rfl
  | cons c cs ih =>
    intro h
    have hc : ¬(c = lbr) := fun he => h (he ▸ List.mem_cons_self c cs)
    have hcs : lbr ∉ cs := fun hm => h (List.mem_cons_of_mem c hm)
    simp [containsMarker, hc, ih hcs]

/-- With at most one `lbr` in the input, the single deletion pass
leaves no citation-marker substring behind. -/
theorem strip_no_marker : ∀ (f : Nat) (l : List Char), l.length ≤ f →
    l.count lbr ≤ 1 → containsMarker (stripMarkersF f l) = false := by
  intro f
  induction f with
  | zero =>
    intro l hl _
    have h0 : l = [] := List.eq_nil_of_length_eq_zero (Nat.le_zero.mp hl)
    subst h0; rfl
  | succ f ih =>
    intro l hl hcount
    cases l with
    | nil => rfl
    | cons c cs =>
      have hlcs : cs.length ≤ f := by simpa using hl
      by_cases hc : c = lbr
      · subst hc
        have hcs0 : cs.count lbr = 0 := by
          have hx := hcount
          simp [List.count_cons] at hx
          omega
        cases hm : matchMarkerAfter cs with
        | some r =>
          have hout : stripMarkersF (f + 1) (lbr :: cs) = stripMarkersF f r := by
            simp [stripMarkersF, hm]
          rw [hout]
          obtain ⟨a, ha, -⟩ := matchMarkerAfter_decomp cs r hm
          have hrlen : r.length ≤ f := by
            have hlen : cs.length = a.length + r.length := by rw [ha]; simp
            omega
          have hrcount : r.count lbr ≤ 1 := by
            have hcc : cs.count lbr = a.count lbr + r.count lbr := by
              rw [ha]; simp [List.count_append]
            omega
          exact ih r hrlen hrcount
        | none =>
          have hout : stripMarkersF (f + 1) (lbr :: cs) = lbr :: stripMarkersF f cs := by
            simp [stripMarkersF, hm]
          have hnomem : lbr ∉ cs := List.count_eq_zero.mp hcs0
          rw [hout, strip_id_of_no_lbr f cs hnomem]
          simp [containsMarker, hm, containsMarker_false_of_no_lbr cs hnomem]
      · have hout : stripMarkersF (f + 1) (c :: cs) = c :: stripMarkersF f cs := by
          simp [stripMarkersF, hc]
        rw [hout]
        have hcscount : cs.count lbr ≤ 1 := by
          simp [List.count_cons] at hcount
          omega
        simp [containsMarker, hc]
        exact ih cs hlcs hcscount

set_option maxRecDepth 100000 in
/-- C4 counterexample: on an input with a backslash before a special
character and a marker nested in marker-shaped text, the normalized
output has a special character preceded by two backslashes and still
contains a citation-marker substring, refuting both halves of the
claim as stated. -/
theorem C4_counterexample :
    ¬ (escapedOnce (normalize c4CexInput) = true ∧
       containsMarker (normalize c4CexInput) = false) := by
  decide

/-- C4 amended: the escape pass runs first and the marker-deletion
pass second; on every backslash-free input each special character of
the output is preceded by exactly one backslash; and when the input
has at most one marker opening bracket the output contains no
citation-marker substring. -/
theorem C4_escape_once_and_strip (l : List Char) :
    ('\\' ∉ l → escapedOnce (normalize l) = true) ∧
    (l.count lbr ≤ 1 → containsMarker (normalize l) = false) ∧
    normalize l = stripMarkers (escapeText l) := by
  refine ⟨?_, ?_, rfl⟩
  · intro h
    have h1 : wfEsc none (escapeText l) = true :=
      wfEsc_escapeText l none h (by simp)
    have h2 : wfEsc none (normalize l) = true := by
      have hs := wfEsc_stripMarkersF (escapeText l).length (escapeText l) none h1
      simpa [normalize, stripMarkers] using hs
    exact okOnce_of_wfEsc (normalize l) none none h2 (by simp)
  · intro h
    have h1 : (escapeText l).count lbr ≤ 1 := by
      rw [count_escapeText_lbr]; exact h
    have hs := strip_no_marker (escapeText l).length (escapeText l) (le_refl _) h1
    simpa [normalize, stripMarkers] using hs

set_option maxRecDepth 100000 in
/-- Witness for the amended C4 on a concrete input with special
characters, no backslash and one citation marker. -/
theorem C4_witness :
    escapedOnce (normalize c4WitInput) = true ∧
    containsMarker (normalize c4WitInput) = false :=
  ⟨(C4_escape_once_and_strip c4WitInput).1 (by decide),
   (C4_escape_once_and_strip c4WitInput).2.1 (by decide)⟩

/-- Helper: a record the extractor returns (non-falsy outcome) never
carries `result = "failed"`. -/
theorem processTransaction_ok_not_failed (c : Option (List Char)) (j : Json)
    (h : processTransaction c = Except.ok (some j)) :
    isFailedStr (jsGetField j resultKey) = false := by
  cases c with
  | none => simp [processTransaction] at h
  | some s =>
    simp only [processTransaction] at h
    split at h
    · simp at h
    · split at h
      · simp at h
      · split at h
        · simp at h
        · rename_i hfail
          simp only [Except.ok.injEq, Option.some.injEq] at h
          subst h
          simpa using hfail

/-- C1: a parsed extraction reply with `result = "failed"` makes the
extractor return its falsy "no transaction" value, every trigger path
then stops before the sink and the notifier, and any record an
effect list hands to the sink or the notifier has `result` different
from "failed". -/
theorem C1_failed_short_circuits :
    (∀ (reply : List Char) (j : Json),
        jsonParse (stripBackticks reply) = some j →
        isFailedStr (jsGetField j resultKey) = true →
        processTransaction (some reply) = Except.ok none ∧
        assistantOcrPath (some reply) = Except.ok ("Not okay", []) ∧
        assistantManualPath (some reply) = Except.ok ("Not okay", []) ∧
        ∀ ec, emailPath ec (some reply) = Except.ok ("Not okay", []) ∨
          emailPath ec (some reply) = Except.error JsErr.emptyEmail) ∧
    (∀ (reply : Option (List Char)) (res : String) (effs : List Effect) (j : Json),
        runTransactionPipeline reply = Except.ok (res, effs) →
        Effect.store j ∈ effs ∨ Effect.notify j ∈ effs →
        isFailedStr (jsGetField j resultKey) = false) := by
  constructor
  · intro reply j hparse hfail
    have hne : (stripBackticks reply).isEmpty = false := by
      cases hsb : stripBackticks reply with
      | nil =>
        rw [hsb] at hparse
        rw [show jsonParse [] = none from rfl] at hparse
        exact Option.noConfusion hparse
      | cons a as => rfl
    have hpt : processTransaction (some reply) = Except.ok none := by
      simp [processTransaction, hne, hparse, hfail]
    refine ⟨hpt, ?_, ?_, ?_⟩
    · simp [assistantOcrPath, runTransactionPipeline, hpt]
    · simp [assistantManualPath, runTransactionPipeline, hpt]
    · intro ec
      cases ec with
      | none => right; rfl
      | some l =>
        by_cases hl : l.isEmpty
        · right; simp [emailPath, hl]
        · left; simp [emailPath, hl, runTransactionPipeline, hpt]
  · intro reply res effs j hrun hmem
    unfold runTransactionPipeline at hrun
    cases hpt : processTransaction reply with
    | error e => rw [hpt] at hrun; simp at hrun
    | ok o =>
      cases o with
      | none =>
        rw [hpt] at hrun
        simp only [Except.ok.injEq, Prod.mk.injEq] at hrun
        obtain ⟨-, rfl⟩ := hrun
        simp at hmem
      | some jr =>
        rw [hpt] at hrun
        by_cases ht : jsonTruthy jr = true
        · simp only [ht, if_true, Except.ok.injEq, Prod.mk.injEq] at hrun
          obtain ⟨-, rfl⟩ := hrun
          have hj : j = jr := by
            rcases hmem with hm | hm <;> simp at hm <;> exact hm
          subst hj
          exact processTransaction_ok_not_failed reply j hpt
        · simp only [ht, if_false, Except.ok.injEq, Prod.mk.injEq] at hrun
          obtain ⟨-, rfl⟩ := hrun
          simp at hmem

/-- Witness for C1 at the literal reply body of the spec's example. -/
theorem C1_witness :
    processTransaction (some failedReply) = Except.ok none ∧
      assistantOcrPath (some failedReply) = Except.ok ("Not okay", []) := by
  have h := C1_failed_short_circuits.1 failedReply
    (Json.obj [(resultKey, Json.str failedLit)])
    (by with_unfolding_all rfl) (by with_unfolding_all rfl)
  exact ⟨h.1, h.2.1⟩

/-- Witness for C10 on a record with empty bank name and absent
datetime. -/
theorem C10_witness :
    formatTransactionDetails ⟨none, "m", some "", none, some "9", none, none⟩ =
        mkNotifText "m" (jsOrNA (some "")) (jsOrNA none) ∧
      jsOrNA none = "N/A" ∧ jsOrNA (some "") = "N/A" :=
  C10_format_na_fields ⟨none, "m", some "", none, some "9", none, none⟩ rfl

end PA
